import Mathlib

/-!
# STH Getter: fetch, record, (check, store) cycle and its scheduler

A shallow embedding of `sthgetter/sthgetter.go` (functions `Run` and
`getCheckStoreSTH`) and of `storage/print/print.go` (`Storage.WriteAPICall`).

Effects are made explicit: every `log.Printf` of the package and every call
to a collaborator (`lc.GetSTH`, `st.WriteAPICall`) appends one `Event` to a
chronological trace carried by the `World`.  The collaborators are values
passed in, exactly as in the Go code, and are arbitrary state-passing
functions.
-/

namespace CTMonitor

/-! ## Data model -/

/-- Go `error` value; only its message (`Error() string`) is observable.
The nil error is `none : Option Error`. -/
structure Error where
  msg : String
deriving DecidableEq, Repr

/-- Modelled from the spec: the parsed Signed Tree Head, first value returned
by `lc.GetSTH()` (its Go type lives outside the files embedded here).  Fields
follow section 3 of the spec: `treeSize` is a non-negative integer and
`timestamp` a number of milliseconds since the epoch, both unsigned 64-bit
integers in Go, so neither can hold a negative value. -/
structure SignedTreeHead where
  treeSize : Nat
  timestamp : Nat
  rootHash : List Nat
  signature : List Nat
deriving DecidableEq, Repr

/-- Modelled from the spec: `client.HTTPData` (RawResponse), the second value
returned by `lc.GetSTH()`.  `Body` is the raw byte sequence that
`getCheckStoreSTH` inspects with `len(httpData.Body)`; `statusMeta` stands for
the protocol-level metadata. The code dereferences the pointer
unconditionally, so the value is always present. -/
structure HTTPData where
  Body : List Nat
  statusMeta : Nat
deriving DecidableEq, Repr

/-- The constant `ct.GetSTHStr` passed to `apicall.New`: the label of the
get-sth endpoint, "get-sth" as in section 3 of the spec. -/
def ct.GetSTHStr : String := "get-sth"

/-- Modelled from the spec: `apicall.APICall` (APICallRecord): endpoint label,
the response, and the error, present if the call failed and absent
otherwise. -/
structure APICall where
  endpointLabel : String
  response : HTTPData
  error : Option Error
deriving DecidableEq, Repr

/-- Modelled from the spec: `apicall.New`, the contract
`Record(endpointLabel, response, err) -> APICallRecord`. -/
def apicall.New (ep : String) (httpData : HTTPData) (err : Option Error) : APICall :=
  ⟨ep, httpData, err⟩

/-- The three values returned by one call of `lc.GetSTH()`. -/
structure GetSTHResult where
  sth : Option SignedTreeHead
  httpData : HTTPData
  getErr : Option Error
deriving DecidableEq, Repr

/-- One argument of a `log.Printf` call. -/
inductive Arg where
  | str (s : String)
  | bytes (b : List Nat)
  | err (e : Error)
  | apiCall (c : APICall)
  | duration (d : Int)
deriving DecidableEq, Repr

/-- Observable effects of the package: a `log.Printf` (format string and
arguments), a call of `lc.GetSTH()` with what it returned, and a call of
`st.WriteAPICall(ctx, apiCall)` with the record passed and what it returned. -/
inductive Event where
  | printf (format : String) (args : List Arg)
  | GetSTH (result : GetSTHResult)
  | WriteAPICall (apiCall : APICall) (result : Option Error)
deriving DecidableEq, Repr

/-- The fetch collaborator `lc *client.LogClient`: a state `κ` and the method
`GetSTH`, which may return anything and change its own state. -/
structure LogClient (κ : Type) where
  GetSTH : κ → GetSTHResult × κ

/-- The audit sink `st storage.APICallWriter`: a state `σ` and the method
`WriteAPICall`, returning nil (`none`) or an error.  Whatever the sink reads
from `ctx` is part of its state. -/
structure APICallWriter (σ : Type) where
  WriteAPICall : σ → APICall → Option Error × σ

/-- Everything a cycle can touch: the state of the two collaborators and the
chronological trace of effects. -/
structure World (κ σ : Type) where
  lc : κ
  st : σ
  trace : List Event

/-- Append one effect to the trace. -/
def World.emit {κ σ : Type} (w : World κ σ) (e : Event) : World κ σ :=
  ⟨w.lc, w.st, w.trace ++ [e]⟩

namespace sthgetter

/-- The package variable `logStr`. -/
def logStr : String := "STH Getter"

/-! ## `getCheckStoreSTH` -/

/-- One cycle, statement by statement as in `getCheckStoreSTH`.  The STH
returned by `lc.GetSTH()` is bound to `_` in the source and is not used; the
two trailing `TODO` comments of the source (run checks, store STH) have no
code.  The `ctx` argument is only handed on to `st.WriteAPICall`, whose
behaviour is arbitrary here. -/
def getCheckStoreSTH {κ σ : Type} (lc : LogClient κ) (st : APICallWriter σ)
    (url : String) (w : World κ σ) : World κ σ :=
  -- Get STH from Log.
  let w := w.emit (.printf "%s: %s: getting STH..." [.str url, .str logStr])
  let r := lc.GetSTH w.lc
  let httpData := r.1.httpData
  let getErr := r.1.getErr
  let w := (World.mk r.2 w.st w.trace).emit (.GetSTH r.1)
  let w := match getErr with
    | some e => w.emit (.printf "%s: %s: error getting STH: %s" [.str url, .str logStr, .err e])
    | none => w
  let w := if 0 < httpData.Body.length then
      w.emit (.printf "%s: %s: response: %s" [.str url, .str logStr, .bytes httpData.Body])
    else w
  -- Store get-sth API call.
  let apiCall := apicall.New ct.GetSTHStr httpData getErr
  let w := w.emit (.printf "%s: %s: writing API Call..." [.str url, .str logStr])
  let wr := st.WriteAPICall w.st apiCall
  let w := (World.mk w.lc wr.2 w.trace).emit (.WriteAPICall apiCall wr.1)
  match wr.1 with
  | some err =>
    w.emit (.printf "%s: %s: error writing API Call %s: %s"
      [.str url, .str logStr, .apiCall apiCall, .err err])
  | none => w

/-! ## `Run` -/

/-- The two cases of the `select` statement in `Run`. -/
inductive Branch where
  | tick
  | done
deriving DecidableEq, Repr

/-- What one evaluation of the `select` statement finds: whether a tick is
pending on `t.C`, whether `ctx.Done()` is closed, and the case the Go run time
picks when more than one case can proceed (Go chooses one of the ready cases
by a uniform pseudo-random selection; source order gives no priority). -/
structure Ready where
  tick : Bool
  done : Bool
  pick : Branch
deriving DecidableEq, Repr

/-- The case the `select` in `Run` proceeds with; `none` while neither channel
is ready and the statement keeps blocking. -/
def selectCase (r : Ready) : Option Branch :=
  match r.tick, r.done with
  | true, true => some r.pick
  | true, false => some Branch.tick
  | false, true => some Branch.done
  | false, false => none

/-- Control state of `Run`: inside the `for`/`select` loop, returned, or
panicked in `time.NewTicker` (which panics unless the period is positive). -/
inductive Status where
  | waiting
  | returned
  | panicked
deriving DecidableEq, Repr

/-- State of a running `Run`. -/
structure RunState (κ σ : Type) where
  status : Status
  world : World κ σ

/-- One iteration of the `for { select { ... } }` loop of `Run`. -/
def step {κ σ : Type} (lc : LogClient κ) (st : APICallWriter σ) (url : String)
    (s : RunState κ σ) (r : Ready) : RunState κ σ :=
  match s.status with
  | Status.waiting =>
    match selectCase r with
    | some Branch.tick => ⟨Status.waiting, getCheckStoreSTH lc st url s.world⟩
    | some Branch.done =>
      ⟨Status.returned, s.world.emit (.printf "%s: %s: stopped" [.str url, .str logStr])⟩
    | none => s
  | _ => s

/-- The function `Run`: the start message, the ticker (period in nanoseconds,
as `time.Duration`), then the loop, driven by what successive evaluations of
the `select` find.  The ticker is local to `Run`; creating and stopping it
writes no log line and calls no collaborator. -/
def Run {κ σ : Type} (lc : LogClient κ) (st : APICallWriter σ) (url : String)
    (period : Int) (w : World κ σ) (script : List Ready) : RunState κ σ :=
  let w := w.emit (.printf "%s: %s: started with period %v"
    [.str url, .str logStr, .duration period])
  if period ≤ 0 then ⟨Status.panicked, w⟩
  else script.foldl (step lc st url) ⟨Status.waiting, w⟩

end sthgetter

/-! ## Package `print` -/

namespace print

/-- The method `Storage.WriteAPICall`: `log.Println(apiCall.String())`, then
`return nil`.  The state is the list of lines printed so far; `toStr` is the
`String` method of the record. -/
def WriteAPICall (toStr : APICall → String) (out : List String) (apiCall : APICall) :
    Option Error × List String :=
  (none, out ++ [toStr apiCall])

/-- The type `Storage` as an audit sink. -/
def Storage (toStr : APICall → String) : APICallWriter (List String) :=
  ⟨WriteAPICall toStr⟩

end print

/-! ## Notions used to state properties of traces -/

namespace sthgetter

/-- The events that one cycle appends, as a function of what `lc.GetSTH()`
returned and of what `st.WriteAPICall` returned.  `getCheckStoreSTH_trace`
proves that `getCheckStoreSTH` appends exactly these. -/
def cycleEvents (url : String) (r : GetSTHResult) (werr : Option Error) : List Event :=
  [Event.printf "%s: %s: getting STH..." [.str url, .str logStr], Event.GetSTH r]
  ++ (match r.getErr with
      | some e => [Event.printf "%s: %s: error getting STH: %s" [.str url, .str logStr, .err e]]
      | none => [])
  ++ (if 0 < r.httpData.Body.length then
        [Event.printf "%s: %s: response: %s" [.str url, .str logStr, .bytes r.httpData.Body]]
      else [])
  ++ [Event.printf "%s: %s: writing API Call..." [.str url, .str logStr],
      Event.WriteAPICall (apicall.New ct.GetSTHStr r.httpData r.getErr) werr]
  ++ (match werr with
      | some err => [Event.printf "%s: %s: error writing API Call %s: %s"
          [.str url, .str logStr, .apiCall (apicall.New ct.GetSTHStr r.httpData r.getErr), .err err]]
      | none => [])

/-- The events of a cycle that precede the call of `st.WriteAPICall`. -/
def cycleHead (url : String) (r : GetSTHResult) : List Event :=
  [Event.printf "%s: %s: getting STH..." [.str url, .str logStr], Event.GetSTH r]
  ++ (match r.getErr with
      | some e => [Event.printf "%s: %s: error getting STH: %s" [.str url, .str logStr, .err e]]
      | none => [])
  ++ (if 0 < r.httpData.Body.length then
        [Event.printf "%s: %s: response: %s" [.str url, .str logStr, .bytes r.httpData.Body]]
      else [])
  ++ [Event.printf "%s: %s: writing API Call..." [.str url, .str logStr]]

/-- Calls to a collaborator, as opposed to log lines. -/
def isCall : Event → Bool
  | Event.printf _ _ => false
  | Event.GetSTH _ => true
  | Event.WriteAPICall _ _ => true

/-- The results of the `lc.GetSTH()` calls of a trace, in order. -/
def fetches (t : List Event) : List GetSTHResult :=
  t.filterMap fun e => match e with
    | Event.GetSTH r => some r
    | _ => none

/-- The records passed to `st.WriteAPICall` in a trace, in order. -/
def writes (t : List Event) : List APICall :=
  t.filterMap fun e => match e with
    | Event.WriteAPICall c _ => some c
    | _ => none

/-- The format strings of the log lines of a trace, in order. -/
def formats (t : List Event) : List String :=
  t.filterMap fun e => match e with
    | Event.printf f _ => some f
    | _ => none

/-- The start message of `Run`. -/
def startedMsg (url : String) (period : Int) : Event :=
  Event.printf "%s: %s: started with period %v" [.str url, .str logStr, .duration period]

/-- The stop message of `Run`. -/
def stoppedMsg (url : String) : Event :=
  Event.printf "%s: %s: stopped" [.str url, .str logStr]

/-- The message `getCheckStoreSTH` logs when `st.WriteAPICall` fails. -/
def writeErrorMsg (url : String) (c : APICall) (err : Error) : Event :=
  Event.printf "%s: %s: error writing API Call %s: %s"
    [.str url, .str logStr, .apiCall c, .err err]

/-- Number of loop iterations of a script that take the tick case before the
first one that takes the cancellation case. -/
def ticksBeforeDone : List Ready → Nat
  | [] => 0
  | r :: rest =>
    match selectCase r with
    | some Branch.tick => ticksBeforeDone rest + 1
    | some Branch.done => 0
    | none => ticksBeforeDone rest

/-! ## Concrete collaborators and inputs -/

/-- A fetch collaborator that returns the same result at every call. -/
def constClient (r : GetSTHResult) : LogClient Unit :=
  ⟨fun k => (r, k)⟩

/-- A fetch collaborator that replays a list of results, then fails. -/
def replayClient : LogClient (List GetSTHResult) :=
  ⟨fun k => match k with
    | r :: rest => (r, rest)
    | [] => (⟨none, ⟨[], 0⟩, some ⟨"no route to host"⟩⟩, [])⟩

/-- An audit sink that fails at every call and counts the calls. -/
def failingWriter (e : Error) : APICallWriter Nat :=
  ⟨fun n _ => (some e, n + 1)⟩

/-- A fetch collaborator that returns the same result at every call and counts
the calls. -/
def countingClient (r : GetSTHResult) : LogClient Nat :=
  ⟨fun n => (r, n + 1)⟩

/-- An audit sink that gives the same answer at every call and counts the
calls. -/
def countingWriter (res : Option Error) : APICallWriter Nat :=
  ⟨fun n _ => (res, n + 1)⟩

/-- An audit sink that keeps every record passed to it and returns nil. -/
def recordingWriter : APICallWriter (List APICall) :=
  ⟨fun l c => (none, l ++ [c])⟩

/-- A rendering of a record, for the print storage. -/
def showAPICall (c : APICall) : String :=
  c.endpointLabel

/-- A well-formed STH with tree size 100. -/
def sth100 : SignedTreeHead := ⟨100, 1500000000000, [1, 2, 3], [4, 5, 6]⟩

/-- A response with a non-empty body. -/
def okData : HTTPData := ⟨[123, 125], 200⟩

/-- A response with an empty body. -/
def emptyData : HTTPData := ⟨[], 200⟩

/-- What the fetch hands back when no response was received. -/
def noResponse : HTTPData := ⟨[], 0⟩

/-- A transport error. -/
def transportErr : Error := ⟨"connection refused"⟩

/-- The error of the fetch for a body that is not a JSON document. -/
def parseErr : Error := ⟨"unexpected end of JSON input"⟩

/-- The bytes of the response body `{"tree_size":-1}`. -/
def negSizeBody : List Nat :=
  [123, 34, 116, 114, 101, 101, 95, 115, 105, 122, 101, 34, 58, 45, 49, 125]

/-- The error of the fetch for a response whose tree size does not fit the
unsigned field of the STH. -/
def negSizeErr : Error :=
  ⟨"json: cannot unmarshal number -1 into Go struct field GetSTHResponse.tree_size of type uint64"⟩

/-- What `lc.GetSTH()` returns for a response whose body carries tree size -1:
no STH, the response, and the parse error. -/
def negSizeFetch : GetSTHResult := ⟨none, ⟨negSizeBody, 200⟩, some negSizeErr⟩

/-- A disk error of the audit sink. -/
def diskErr : Error := ⟨"disk full"⟩

/-- The world before anything happened, with the print storage. -/
def w0 : World Unit (List String) := ⟨(), [], []⟩

/-- The world before anything happened, with the failing sink. -/
def w1 : World Unit Nat := ⟨(), 0, []⟩

end sthgetter

/-! ## Lemmas -/

namespace sthgetter

variable {κ σ : Type}

theorem getCheckStoreSTH_trace (lc : LogClient κ) (st : APICallWriter σ) (url : String)
    (w : World κ σ) :
    (getCheckStoreSTH lc st url w).trace =
      w.trace ++ cycleEvents url (lc.GetSTH w.lc).1
        (st.WriteAPICall w.st
          (apicall.New ct.GetSTHStr (lc.GetSTH w.lc).1.httpData (lc.GetSTH w.lc).1.getErr)).1 := by
  rcases hres : lc.GetSTH w.lc with ⟨⟨sth, d, e⟩, k⟩
  simp only [getCheckStoreSTH, cycleEvents, World.emit, hres]
  cases e <;> by_cases hb : 0 < d.Body.length <;> simp only [hb, if_true, if_false]
  · cases hw : (st.WriteAPICall w.st (apicall.New ct.GetSTHStr d none)).1 <;> simp
  · cases hw : (st.WriteAPICall w.st (apicall.New ct.GetSTHStr d none)).1 <;> simp
  · rename_i e
    cases hw : (st.WriteAPICall w.st (apicall.New ct.GetSTHStr d (some e))).1 <;> simp
  · rename_i e
    cases hw : (st.WriteAPICall w.st (apicall.New ct.GetSTHStr d (some e))).1 <;> simp

theorem getCheckStoreSTH_eq (lc : LogClient κ) (st : APICallWriter σ) (url : String)
    (w : World κ σ) :
    getCheckStoreSTH lc st url w =
      ⟨(lc.GetSTH w.lc).2,
        (st.WriteAPICall w.st
          (apicall.New ct.GetSTHStr (lc.GetSTH w.lc).1.httpData (lc.GetSTH w.lc).1.getErr)).2,
        w.trace ++ cycleEvents url (lc.GetSTH w.lc).1
          (st.WriteAPICall w.st
            (apicall.New ct.GetSTHStr (lc.GetSTH w.lc).1.httpData
              (lc.GetSTH w.lc).1.getErr)).1⟩ := by
  rcases hres : lc.GetSTH w.lc with ⟨⟨sth, d, e⟩, k⟩
  simp only [getCheckStoreSTH, cycleEvents, World.emit, hres]
  cases e <;> by_cases hb : 0 < d.Body.length <;> simp only [hb, if_true, if_false]
  · cases hw : (st.WriteAPICall w.st (apicall.New ct.GetSTHStr d none)).1 <;> simp
  · cases hw : (st.WriteAPICall w.st (apicall.New ct.GetSTHStr d none)).1 <;> simp
  · rename_i e
    cases hw : (st.WriteAPICall w.st (apicall.New ct.GetSTHStr d (some e))).1 <;> simp
  · rename_i e
    cases hw : (st.WriteAPICall w.st (apicall.New ct.GetSTHStr d (some e))).1 <;> simp

theorem cycleEvents_calls (url : String) (r : GetSTHResult) (werr : Option Error) :
    (cycleEvents url r werr).filter isCall =
      [Event.GetSTH r, Event.WriteAPICall (apicall.New ct.GetSTHStr r.httpData r.getErr) werr] := by
  obtain ⟨sth, d, e⟩ := r
  cases e <;> cases werr <;> by_cases hb : 0 < d.Body.length <;>
    simp [cycleEvents, isCall, hb, List.filter]

theorem fetches_cycleEvents (url : String) (r : GetSTHResult) (werr : Option Error) :
    fetches (cycleEvents url r werr) = [r] := by
  obtain ⟨sth, d, e⟩ := r
  cases e <;> cases werr <;> by_cases hb : 0 < d.Body.length <;>
    simp [cycleEvents, fetches, hb, List.filterMap]

theorem writes_cycleEvents (url : String) (r : GetSTHResult) (werr : Option Error) :
    writes (cycleEvents url r werr) = [apicall.New ct.GetSTHStr r.httpData r.getErr] := by
  obtain ⟨sth, d, e⟩ := r
  cases e <;> cases werr <;> by_cases hb : 0 < d.Body.length <;>
    simp [cycleEvents, writes, hb, List.filterMap]

theorem cycleEvents_some (url : String) (r : GetSTHResult) (err : Error) :
    cycleEvents url r (some err) = cycleHead url r ++
      [Event.WriteAPICall (apicall.New ct.GetSTHStr r.httpData r.getErr) (some err),
        writeErrorMsg url (apicall.New ct.GetSTHStr r.httpData r.getErr) err] := by
  simp [cycleEvents, cycleHead, writeErrorMsg]

theorem cycleEvents_none (url : String) (r : GetSTHResult) :
    cycleEvents url r none = cycleHead url r ++
      [Event.WriteAPICall (apicall.New ct.GetSTHStr r.httpData r.getErr) none] := by
  simp [cycleEvents, cycleHead]

theorem writes_cycleHead (url : String) (r : GetSTHResult) :
    writes (cycleHead url r) = [] := by
  obtain ⟨sth, d, e⟩ := r
  cases e <;> by_cases hb : 0 < d.Body.length <;>
    simp [cycleHead, writes, hb, List.filterMap]

theorem formats_cycleHead (url : String) (r : GetSTHResult) :
    "%s: %s: error writing API Call %s: %s" ∉ formats (cycleHead url r) := by
  obtain ⟨sth, d, e⟩ := r
  cases e <;> by_cases hb : 0 < d.Body.length <;>
    simp [cycleHead, formats, hb, List.filterMap]

/-! ## The cycle -/

/-- C1: whatever `lc.GetSTH` returns (transport error, non-empty body, empty
body) and whatever `st.WriteAPICall` returns (nil or error), one execution of
`getCheckStoreSTH` leaves the fetch collaborator in the state that one call of
`GetSTH` on its initial state produces, leaves the audit sink in the state
that one call of `WriteAPICall` on its initial state produces, and the calls
it adds to the trace are exactly that `GetSTH` followed by that
`WriteAPICall`, each with the answer the collaborator gave. -/
theorem getCheckStoreSTH_one_fetch_then_one_write (lc : LogClient κ) (st : APICallWriter σ)
    (url : String) (w : World κ σ) :
    ∃ new c,
      c = apicall.New ct.GetSTHStr (lc.GetSTH w.lc).1.httpData (lc.GetSTH w.lc).1.getErr ∧
      getCheckStoreSTH lc st url w =
        ⟨(lc.GetSTH w.lc).2, (st.WriteAPICall w.st c).2, w.trace ++ new⟩ ∧
      new.filter isCall =
        [Event.GetSTH (lc.GetSTH w.lc).1, Event.WriteAPICall c (st.WriteAPICall w.st c).1] :=
  ⟨_, _, rfl, getCheckStoreSTH_eq lc st url w, cycleEvents_calls _ _ _⟩

/-- Witness of C1 with collaborators that count their calls: after one cycle
each counter stands at one, for a transport error with a sink that accepts,
for a non-empty body with a sink that fails, and for an empty body reported
as a parse error. -/
theorem getCheckStoreSTH_one_fetch_then_one_write_witness :
    ((getCheckStoreSTH (countingClient ⟨none, noResponse, some transportErr⟩)
        (countingWriter none) "log" ⟨0, 0, []⟩).lc = 1 ∧
     (getCheckStoreSTH (countingClient ⟨none, noResponse, some transportErr⟩)
        (countingWriter none) "log" ⟨0, 0, []⟩).st = 1) ∧
    ((getCheckStoreSTH (countingClient ⟨some sth100, okData, none⟩)
        (countingWriter (some diskErr)) "log" ⟨0, 0, []⟩).lc = 1 ∧
     (getCheckStoreSTH (countingClient ⟨some sth100, okData, none⟩)
        (countingWriter (some diskErr)) "log" ⟨0, 0, []⟩).st = 1) ∧
    ((getCheckStoreSTH (countingClient ⟨none, emptyData, some parseErr⟩)
        (countingWriter none) "log" ⟨0, 0, []⟩).lc = 1 ∧
     (getCheckStoreSTH (countingClient ⟨none, emptyData, some parseErr⟩)
        (countingWriter none) "log" ⟨0, 0, []⟩).st = 1) := by
  refine ⟨?_, ?_, ?_⟩
  · obtain ⟨new, c, -, hw, -⟩ := getCheckStoreSTH_one_fetch_then_one_write
      (countingClient ⟨none, noResponse, some transportErr⟩) (countingWriter none) "log"
      ⟨0, 0, []⟩
    rw [hw]
    exact ⟨rfl, rfl⟩
  · obtain ⟨new, c, -, hw, -⟩ := getCheckStoreSTH_one_fetch_then_one_write
      (countingClient ⟨some sth100, okData, none⟩) (countingWriter (some diskErr)) "log"
      ⟨0, 0, []⟩
    rw [hw]
    exact ⟨rfl, rfl⟩
  · obtain ⟨new, c, -, hw, -⟩ := getCheckStoreSTH_one_fetch_then_one_write
      (countingClient ⟨none, emptyData, some parseErr⟩) (countingWriter none) "log"
      ⟨0, 0, []⟩
    rw [hw]
    exact ⟨rfl, rfl⟩

/-- C2: the state of the audit sink after one execution of `getCheckStoreSTH`
is the state that `st.WriteAPICall` produces from the initial state when it is
given the record `apicall.New(ct.GetSTHStr, httpData, getErr)` made from the
`httpData` and `getErr` that the `lc.GetSTH` call of the same cycle returned;
that call is the only `WriteAPICall` of the cycle, it follows the fetch, and
the record has the get-sth label, that response unmodified, and that error
(present exactly when the fetch failed). -/
theorem getCheckStoreSTH_writes_record_of_fetch (lc : LogClient κ) (st : APICallWriter σ)
    (url : String) (w : World κ σ) :
    ∃ new c,
      getCheckStoreSTH lc st url w =
        ⟨(lc.GetSTH w.lc).2, (st.WriteAPICall w.st c).2, w.trace ++ new⟩ ∧
      new.filter isCall =
        [Event.GetSTH (lc.GetSTH w.lc).1, Event.WriteAPICall c (st.WriteAPICall w.st c).1] ∧
      c = apicall.New ct.GetSTHStr (lc.GetSTH w.lc).1.httpData (lc.GetSTH w.lc).1.getErr ∧
      c.endpointLabel = "get-sth" ∧
      c.response = (lc.GetSTH w.lc).1.httpData ∧
      c.error = (lc.GetSTH w.lc).1.getErr ∧
      (c.error.isSome = true ↔ (lc.GetSTH w.lc).1.getErr ≠ none) :=
  ⟨_, _, getCheckStoreSTH_eq lc st url w, cycleEvents_calls _ _ _,
    rfl, rfl, rfl, rfl, by
      cases (lc.GetSTH w.lc).1.getErr <;> simp [apicall.New]⟩

/-- Witness of C2 with a sink that keeps what it is given: after a fetch that
failed with a transport error the sink holds one record, which carries the
get-sth label, the response of that fetch and that error; after a fetch that
succeeded it holds one record with the response and no error. -/
theorem getCheckStoreSTH_writes_record_of_fetch_witness :
    (getCheckStoreSTH (constClient ⟨none, noResponse, some transportErr⟩) recordingWriter
        "log" ⟨(), [], []⟩).st = [⟨"get-sth", ⟨[], 0⟩, some ⟨"connection refused"⟩⟩] ∧
    (getCheckStoreSTH (constClient ⟨some sth100, okData, none⟩) recordingWriter
        "log" ⟨(), [], []⟩).st = [⟨"get-sth", ⟨[123, 125], 200⟩, none⟩] := by
  constructor
  · obtain ⟨new, c, hw, -, hc, -⟩ := getCheckStoreSTH_writes_record_of_fetch
      (constClient ⟨none, noResponse, some transportErr⟩) recordingWriter "log" ⟨(), [], []⟩
    rw [hw, hc]
    rfl
  · obtain ⟨new, c, hw, -, hc, -⟩ := getCheckStoreSTH_writes_record_of_fetch
      (constClient ⟨some sth100, okData, none⟩) recordingWriter "log" ⟨(), [], []⟩
    rw [hw, hc]
    rfl

/-- C5: when `st.WriteAPICall` returns an error, the cycle ends with that
single call followed by one log line carrying the record and the error, and
nothing before it is a call of `WriteAPICall` or a write-error line; when it
returns nil, the cycle logs no write-error line.  In both cases
`getCheckStoreSTH` returns (it is a total function of the world), and the
sink is left in the state that this one call produced from its initial
state: there is no second call. -/
theorem getCheckStoreSTH_write_error_logged_once (lc : LogClient κ) (st : APICallWriter σ)
    (url : String) (w : World κ σ) (c : APICall)
    (hc : c = apicall.New ct.GetSTHStr (lc.GetSTH w.lc).1.httpData (lc.GetSTH w.lc).1.getErr) :
    (∀ err, (st.WriteAPICall w.st c).1 = some err →
      ∃ pre, (getCheckStoreSTH lc st url w).trace =
          w.trace ++ pre ++ [Event.WriteAPICall c (some err), writeErrorMsg url c err] ∧
        writes pre = [] ∧ "%s: %s: error writing API Call %s: %s" ∉ formats pre) ∧
    ((st.WriteAPICall w.st c).1 = none →
      ∃ new, (getCheckStoreSTH lc st url w).trace = w.trace ++ new ∧
        writes new = [c] ∧ "%s: %s: error writing API Call %s: %s" ∉ formats new) ∧
    (getCheckStoreSTH lc st url w).st = (st.WriteAPICall w.st c).2 := by
  subst hc
  have ht := getCheckStoreSTH_trace lc st url w
  refine ⟨?_, ?_, ?_⟩
  · intro err herr
    rw [herr, cycleEvents_some, ← List.append_assoc] at ht
    exact ⟨_, ht, writes_cycleHead _ _, formats_cycleHead _ _⟩
  · intro hnone
    rw [hnone] at ht
    refine ⟨_, ht, writes_cycleEvents _ _ _, ?_⟩
    rw [cycleEvents_none]
    have := formats_cycleHead url (lc.GetSTH w.lc).1
    simpa [formats, List.filterMap_append] using this
  · rw [getCheckStoreSTH_eq]

/-- Witness of C5: a sink that fails with "disk full" after a transport error
of the fetch, and the print storage, which returns nil.  The failing sink
counts its calls and has been called once. -/
theorem getCheckStoreSTH_write_error_logged_once_witness :
    ((failingWriter diskErr).WriteAPICall w1.st
        (apicall.New ct.GetSTHStr emptyData (some transportErr))).1 = some diskErr ∧
    (∃ pre, (getCheckStoreSTH (constClient ⟨none, emptyData, some transportErr⟩)
          (failingWriter diskErr) "log" w1).trace =
        w1.trace ++ pre ++
          [Event.WriteAPICall (apicall.New ct.GetSTHStr emptyData (some transportErr)) (some diskErr),
            writeErrorMsg "log" (apicall.New ct.GetSTHStr emptyData (some transportErr)) diskErr] ∧
        writes pre = [] ∧ "%s: %s: error writing API Call %s: %s" ∉ formats pre) ∧
    ((print.Storage showAPICall).WriteAPICall w0.st
        (apicall.New ct.GetSTHStr okData none)).1 = none ∧
    (∃ new, (getCheckStoreSTH (constClient ⟨some sth100, okData, none⟩)
          (print.Storage showAPICall) "log" w0).trace = w0.trace ++ new ∧
        writes new = [apicall.New ct.GetSTHStr okData none] ∧
        "%s: %s: error writing API Call %s: %s" ∉ formats new) ∧
    (getCheckStoreSTH (constClient ⟨none, emptyData, some transportErr⟩)
      (failingWriter diskErr) "log" w1).st = 1 :=
  ⟨rfl,
   (getCheckStoreSTH_write_error_logged_once (constClient ⟨none, emptyData, some transportErr⟩)
      (failingWriter diskErr) "log" w1 _ rfl).1 diskErr rfl,
   rfl,
   (getCheckStoreSTH_write_error_logged_once (constClient ⟨some sth100, okData, none⟩)
      (print.Storage showAPICall) "log" w0 _ rfl).2.1 rfl,
   (getCheckStoreSTH_write_error_logged_once (constClient ⟨none, emptyData, some transportErr⟩)
      (failingWriter diskErr) "log" w1 _ rfl).2.2⟩

/-- C3 evaluated at scenario A: the fetch succeeds with a well-formed STH of
tree size 100 and the print storage accepts the audit record.  The whole
cycle is five events, the audit write being the only write to any sink; the
STH is written nowhere, the state of the storage holds the audit record
only. -/
theorem wellFormedSTH_cycle_writes_audit_record_only :
    (getCheckStoreSTH (constClient ⟨some sth100, okData, none⟩)
        (print.Storage showAPICall) "log" w0).trace =
      [Event.printf "%s: %s: getting STH..." [.str "log", .str "STH Getter"],
       Event.GetSTH ⟨some ⟨100, 1500000000000, [1, 2, 3], [4, 5, 6]⟩, ⟨[123, 125], 200⟩, none⟩,
       Event.printf "%s: %s: response: %s" [.str "log", .str "STH Getter", .bytes [123, 125]],
       Event.printf "%s: %s: writing API Call..." [.str "log", .str "STH Getter"],
       Event.WriteAPICall ⟨"get-sth", ⟨[123, 125], 200⟩, none⟩ none] ∧
    (getCheckStoreSTH (constClient ⟨some sth100, okData, none⟩)
        (print.Storage showAPICall) "log" w0).st = ["get-sth"] :=
  ⟨rfl, rfl⟩

/-- C4 as stated fails: a response whose body carries tree size -1 gives the
cycle no STH with a negative tree size to check.  The fetch returns it as an
error with no STH, and the cycle logs that fetch error and the body and writes
the audit record carrying the error; these six events are all it does. -/
theorem negative_tree_size_arrives_as_fetch_error :
    negSizeFetch.sth = none ∧
    (getCheckStoreSTH (constClient negSizeFetch) (print.Storage showAPICall) "log" w0).trace =
      [Event.printf "%s: %s: getting STH..." [.str "log", .str "STH Getter"],
       Event.GetSTH ⟨none, ⟨negSizeBody, 200⟩, some negSizeErr⟩,
       Event.printf "%s: %s: error getting STH: %s"
         [.str "log", .str "STH Getter", .err negSizeErr],
       Event.printf "%s: %s: response: %s" [.str "log", .str "STH Getter", .bytes negSizeBody],
       Event.printf "%s: %s: writing API Call..." [.str "log", .str "STH Getter"],
       Event.WriteAPICall ⟨"get-sth", ⟨negSizeBody, 200⟩, some negSizeErr⟩ none] ∧
    (getCheckStoreSTH (constClient negSizeFetch) (print.Storage showAPICall) "log" w0).st =
      ["get-sth"] :=
  ⟨rfl, rfl, rfl⟩

/-- C4, amended: no STH has a negative tree size, the field being unsigned;
and whenever the fetch returns an error, the cycle logs the "error getting
STH" line with that error (and the body, if there is one), calls
`st.WriteAPICall` once with the record carrying that error, logs the answer of
the sink if it is an error, and does nothing else. -/
theorem getCheckStoreSTH_fetch_error (lc : LogClient κ) (st : APICallWriter σ)
    (url : String) (w : World κ σ) (e : Error)
    (he : (lc.GetSTH w.lc).1.getErr = some e) :
    (∀ sth : SignedTreeHead, ¬ ((sth.treeSize : Int) < 0)) ∧
    ∃ c werr,
      c = apicall.New ct.GetSTHStr (lc.GetSTH w.lc).1.httpData (some e) ∧
      werr = (st.WriteAPICall w.st c).1 ∧
      getCheckStoreSTH lc st url w =
        ⟨(lc.GetSTH w.lc).2, (st.WriteAPICall w.st c).2,
          w.trace ++
            ([Event.printf "%s: %s: getting STH..." [.str url, .str logStr],
              Event.GetSTH (lc.GetSTH w.lc).1,
              Event.printf "%s: %s: error getting STH: %s" [.str url, .str logStr, .err e]] ++
             (if 0 < (lc.GetSTH w.lc).1.httpData.Body.length then
                [Event.printf "%s: %s: response: %s"
                  [.str url, .str logStr, .bytes (lc.GetSTH w.lc).1.httpData.Body]]
              else []) ++
             [Event.printf "%s: %s: writing API Call..." [.str url, .str logStr],
              Event.WriteAPICall c werr] ++
             (match werr with
              | some err => [writeErrorMsg url c err]
              | none => []))⟩ := by
  refine ⟨fun sth h => absurd (Int.ofNat_nonneg sth.treeSize) (not_le.mpr h), _, _, rfl, rfl, ?_⟩
  rw [getCheckStoreSTH_eq, he]
  congr 2
  simp only [cycleEvents, he, writeErrorMsg, List.append_assoc, List.cons_append,
    List.nil_append]

/-- Witness of amended C4: the fetch error for a response with tree size -1,
with the print storage. -/
theorem getCheckStoreSTH_fetch_error_witness :
    ((constClient negSizeFetch).GetSTH w0.lc).1.getErr = some negSizeErr ∧
    (∀ sth : SignedTreeHead, ¬ ((sth.treeSize : Int) < 0)) ∧
    ∃ c werr,
      c = apicall.New ct.GetSTHStr ((constClient negSizeFetch).GetSTH w0.lc).1.httpData
        (some negSizeErr) ∧
      werr = ((print.Storage showAPICall).WriteAPICall w0.st c).1 ∧
      getCheckStoreSTH (constClient negSizeFetch) (print.Storage showAPICall) "log" w0 =
        ⟨((constClient negSizeFetch).GetSTH w0.lc).2,
          ((print.Storage showAPICall).WriteAPICall w0.st c).2,
          w0.trace ++
            ([Event.printf "%s: %s: getting STH..." [.str "log", .str logStr],
              Event.GetSTH ((constClient negSizeFetch).GetSTH w0.lc).1,
              Event.printf "%s: %s: error getting STH: %s"
                [.str "log", .str logStr, .err negSizeErr]] ++
             (if 0 < ((constClient negSizeFetch).GetSTH w0.lc).1.httpData.Body.length then
                [Event.printf "%s: %s: response: %s"
                  [.str "log", .str logStr,
                    .bytes ((constClient negSizeFetch).GetSTH w0.lc).1.httpData.Body]]
              else []) ++
             [Event.printf "%s: %s: writing API Call..." [.str "log", .str logStr],
              Event.WriteAPICall c werr] ++
             (match werr with
              | some err => [writeErrorMsg "log" c err]
              | none => []))⟩ :=
  ⟨rfl, getCheckStoreSTH_fetch_error (constClient negSizeFetch) (print.Storage showAPICall)
    "log" w0 negSizeErr rfl⟩

/-! ## The loop of `Run` -/

theorem step_tick (lc : LogClient κ) (st : APICallWriter σ) (url : String) (w : World κ σ)
    (r : Ready) (h : selectCase r = some Branch.tick) :
    step lc st url ⟨Status.waiting, w⟩ r = ⟨Status.waiting, getCheckStoreSTH lc st url w⟩ := by
  simp [step, h]

theorem step_done (lc : LogClient κ) (st : APICallWriter σ) (url : String) (w : World κ σ)
    (r : Ready) (h : selectCase r = some Branch.done) :
    step lc st url ⟨Status.waiting, w⟩ r = ⟨Status.returned, w.emit (stoppedMsg url)⟩ := by
  simp [step, h, stoppedMsg]

theorem step_blocked (lc : LogClient κ) (st : APICallWriter σ) (url : String) (w : World κ σ)
    (r : Ready) (h : selectCase r = none) :
    step lc st url ⟨Status.waiting, w⟩ r = ⟨Status.waiting, w⟩ := by
  simp [step, h]

theorem foldl_step_halted (lc : LogClient κ) (st : APICallWriter σ) (url : String)
    (s : RunState κ σ) (h : s.status ≠ Status.waiting) (script : List Ready) :
    script.foldl (step lc st url) s = s := by
  induction script with
  | nil => rfl
  | cons r rest ih =>
    have hs : step lc st url s r = s := by
      unfold step
      cases hst : s.status <;> simp_all
    rw [List.foldl_cons, hs, ih]

theorem formats_cycleEvents (url : String) (r : GetSTHResult) (werr : Option Error) :
    "%s: %s: started with period %v" ∉ formats (cycleEvents url r werr) ∧
    "%s: %s: stopped" ∉ formats (cycleEvents url r werr) := by
  obtain ⟨sth, d, e⟩ := r
  cases e <;> cases werr <;> by_cases hb : 0 < d.Body.length <;>
    simp [cycleEvents, formats, hb, List.filterMap]

theorem loop_spec (lc : LogClient κ) (st : APICallWriter σ) (url : String) :
    ∀ (script : List Ready) (w : World κ σ), ∃ blocks : List (List Event),
      blocks.length = ticksBeforeDone script ∧
      (∀ b ∈ blocks, (∃ wb : World κ σ, (getCheckStoreSTH lc st url wb).trace = wb.trace ++ b) ∧
        ∃ r werr, b = cycleEvents url r werr) ∧
      ((∃ x ∈ script, selectCase x = some Branch.done) →
        (script.foldl (step lc st url) ⟨Status.waiting, w⟩).status = Status.returned ∧
        (script.foldl (step lc st url) ⟨Status.waiting, w⟩).world.trace =
          w.trace ++ blocks.flatten ++ [stoppedMsg url]) ∧
      ((∀ x ∈ script, selectCase x ≠ some Branch.done) →
        (script.foldl (step lc st url) ⟨Status.waiting, w⟩).status = Status.waiting ∧
        (script.foldl (step lc st url) ⟨Status.waiting, w⟩).world.trace =
          w.trace ++ blocks.flatten) := by
  intro script
  induction script with
  | nil =>
    intro w
    exact ⟨[], rfl, by simp, by simp, by simp⟩
  | cons r rest ih =>
    intro w
    rcases hsel : selectCase r with _ | b
    · obtain ⟨blocks, hlen, hall, hret, hwait⟩ := ih w
      refine ⟨blocks, by simp [ticksBeforeDone, hsel, hlen], hall, ?_, ?_⟩
      · intro hex
        rw [List.foldl_cons, step_blocked lc st url w r hsel]
        apply hret
        obtain ⟨x, hx, hxd⟩ := hex
        rcases List.mem_cons.mp hx with rfl | hx
        · rw [hsel] at hxd; cases hxd
        · exact ⟨x, hx, hxd⟩
      · intro hno
        rw [List.foldl_cons, step_blocked lc st url w r hsel]
        exact hwait fun x hx => hno x (List.mem_cons_of_mem _ hx)
    · cases b with
      | tick =>
        obtain ⟨blocks, hlen, hall, hret, hwait⟩ := ih (getCheckStoreSTH lc st url w)
        refine ⟨cycleEvents url (lc.GetSTH w.lc).1
          (st.WriteAPICall w.st (apicall.New ct.GetSTHStr (lc.GetSTH w.lc).1.httpData
            (lc.GetSTH w.lc).1.getErr)).1 :: blocks, by simp [ticksBeforeDone, hsel, hlen],
          ?_, ?_, ?_⟩
        · intro b hb
          rcases List.mem_cons.mp hb with rfl | hb
          · exact ⟨⟨w, getCheckStoreSTH_trace lc st url w⟩, _, _, rfl⟩
          · exact hall b hb
        · intro hex
          rw [List.foldl_cons, step_tick lc st url w r hsel]
          have hex2 : ∃ x ∈ rest, selectCase x = some Branch.done := by
            obtain ⟨x, hx, hxd⟩ := hex
            rcases List.mem_cons.mp hx with rfl | hx
            · rw [hsel] at hxd; cases hxd
            · exact ⟨x, hx, hxd⟩
          obtain ⟨h1, h2⟩ := hret hex2
          refine ⟨h1, ?_⟩
          rw [h2, getCheckStoreSTH_trace]
          simp [List.append_assoc]
        · intro hno
          rw [List.foldl_cons, step_tick lc st url w r hsel]
          obtain ⟨h1, h2⟩ := hwait fun x hx => hno x (List.mem_cons_of_mem _ hx)
          refine ⟨h1, ?_⟩
          rw [h2, getCheckStoreSTH_trace]
          simp [List.append_assoc]
      | done =>
        refine ⟨[], by simp [ticksBeforeDone, hsel], by simp, ?_, ?_⟩
        · intro _
          rw [List.foldl_cons, step_done lc st url w r hsel,
            foldl_step_halted lc st url _ (by simp)]
          simp [World.emit]
        · intro hno
          exact absurd hsel (hno r (List.mem_cons_self _ _))

theorem Run_of_pos (lc : LogClient κ) (st : APICallWriter σ) (url : String) (period : Int)
    (w : World κ σ) (script : List Ready) (hp : 0 < period) :
    Run lc st url period w script =
      script.foldl (step lc st url) ⟨Status.waiting, w.emit (startedMsg url period)⟩ := by
  simp [Run, not_le.mpr hp, startedMsg]

theorem Run_of_nonpos (lc : LogClient κ) (st : APICallWriter σ) (url : String) (period : Int)
    (w : World κ σ) (script : List Ready) (hp : period ≤ 0) :
    Run lc st url period w script = ⟨Status.panicked, w.emit (startedMsg url period)⟩ := by
  simp [Run, hp, startedMsg]

theorem formats_blocks (url : String) (blocks : List (List Event))
    (hall : ∀ b ∈ blocks, ∃ r werr, b = cycleEvents url r werr) :
    "%s: %s: started with period %v" ∉ formats blocks.flatten ∧
    "%s: %s: stopped" ∉ formats blocks.flatten := by
  induction blocks with
  | nil => simp [formats]
  | cons b rest ih =>
    obtain ⟨r, werr, rfl⟩ := hall _ (List.mem_cons_self _ _)
    have h1 := formats_cycleEvents url r werr
    have h2 := ih fun b hb => hall b (List.mem_cons_of_mem _ hb)
    simp only [formats, List.flatten_cons, List.filterMap_append, List.mem_append, not_or] at *
    exact ⟨⟨h1.1, h2.1⟩, ⟨h1.2, h2.2⟩⟩

theorem counts_blocks (url : String) (blocks : List (List Event))
    (hall : ∀ b ∈ blocks, ∃ r werr, b = cycleEvents url r werr) :
    (fetches blocks.flatten).length = blocks.length ∧
    (writes blocks.flatten).length = blocks.length := by
  induction blocks with
  | nil => simp [fetches, writes]
  | cons b rest ih =>
    obtain ⟨r0, werr, rfl⟩ := hall _ (List.mem_cons_self _ _)
    have ih2 := ih fun b hb => hall b (List.mem_cons_of_mem _ hb)
    have hf := fetches_cycleEvents url r0 werr
    have hw := writes_cycleEvents url r0 werr
    simp only [fetches, writes] at hf hw ih2
    simp only [fetches, writes, List.flatten_cons, List.filterMap_append, List.length_append,
      hf, hw, ih2.1, ih2.2, List.length_cons, List.length_singleton, List.length_nil]
    omega

theorem eq_of_waiting (s : RunState κ σ) (h : s.status = Status.waiting) :
    s = ⟨Status.waiting, s.world⟩ := by
  obtain ⟨status, world⟩ := s
  simp only at h
  subst h
  rfl

/-- C6: `Run` returns exactly when some evaluation of its `select` takes the
`ctx.Done()` case (and the ticker could be created); whatever the fetch
collaborator and the audit sink do in a cycle, after a tick case `Run` is
waiting at the `select` again, and a later tick case runs another cycle. -/
theorem Run_returns_only_on_cancellation (lc : LogClient κ) (st : APICallWriter σ)
    (url : String) (period : Int) (w : World κ σ) (script : List Ready) :
    ((Run lc st url period w script).status = Status.returned ↔
      0 < period ∧ ∃ r ∈ script, selectCase r = some Branch.done) ∧
    (∀ (s : RunState κ σ) (r r2 : Ready), s.status = Status.waiting →
      selectCase r = some Branch.tick → selectCase r2 = some Branch.tick →
        step lc st url s r = ⟨Status.waiting, getCheckStoreSTH lc st url s.world⟩ ∧
        step lc st url (step lc st url s r) r2 =
          ⟨Status.waiting, getCheckStoreSTH lc st url (getCheckStoreSTH lc st url s.world)⟩) := by
  constructor
  · by_cases hp : period ≤ 0
    · rw [Run_of_nonpos lc st url period w script hp]
      constructor
      · intro h; cases h
      · intro h; exact absurd h.1 (not_lt.mpr hp)
    · have hp2 : 0 < period := not_le.mp hp
      rw [Run_of_pos lc st url period w script hp2]
      obtain ⟨blocks, -, -, hret, hwait⟩ :=
        loop_spec lc st url script (w.emit (startedMsg url period))
      constructor
      · intro h
        refine ⟨hp2, ?_⟩
        by_contra hno
        have hno2 : ∀ x ∈ script, selectCase x ≠ some Branch.done :=
          fun x hx hxd => hno ⟨x, hx, hxd⟩
        rw [(hwait hno2).1] at h
        cases h
      · intro h
        exact (hret h.2).1
  · intro s r r2 hs hr hr2
    obtain ⟨status, world⟩ := s
    simp only at hs
    subst hs
    rw [step_tick lc st url world r hr, step_tick lc st url _ r2 hr2]
    exact ⟨rfl, rfl⟩

/-- Witness of C6: two cycles (a transport error, then an empty body reported
as a parse error), both with a failing audit sink, then cancellation. -/
theorem Run_returns_only_on_cancellation_witness :
    (Run replayClient (failingWriter diskErr) "log" 1000
        ⟨[⟨none, emptyData, some transportErr⟩, ⟨none, emptyData, some parseErr⟩], 0, []⟩
        [⟨true, false, Branch.tick⟩, ⟨true, false, Branch.tick⟩,
          ⟨false, true, Branch.tick⟩]).status = Status.returned ∧
    step replayClient (failingWriter diskErr) "log"
        (step replayClient (failingWriter diskErr) "log"
          ⟨Status.waiting, ⟨[⟨none, emptyData, some transportErr⟩], 0, []⟩⟩
          ⟨true, false, Branch.tick⟩) ⟨true, true, Branch.tick⟩ =
      ⟨Status.waiting, getCheckStoreSTH replayClient (failingWriter diskErr) "log"
        (getCheckStoreSTH replayClient (failingWriter diskErr) "log"
          ⟨[⟨none, emptyData, some transportErr⟩], 0, []⟩)⟩ :=
  ⟨(Run_returns_only_on_cancellation replayClient (failingWriter diskErr) "log" 1000
      ⟨[⟨none, emptyData, some transportErr⟩, ⟨none, emptyData, some parseErr⟩], 0, []⟩
      [⟨true, false, Branch.tick⟩, ⟨true, false, Branch.tick⟩,
        ⟨false, true, Branch.tick⟩]).1.mpr
      ⟨by decide, ⟨false, true, Branch.tick⟩, by simp, rfl⟩,
   ((Run_returns_only_on_cancellation replayClient (failingWriter diskErr) "log" 1000
      ⟨[⟨none, emptyData, some transportErr⟩], 0, []⟩ []).2
      ⟨Status.waiting, ⟨[⟨none, emptyData, some transportErr⟩], 0, []⟩⟩
      ⟨true, false, Branch.tick⟩ ⟨true, true, Branch.tick⟩ rfl rfl rfl).2⟩

/-- C7 as stated fails: a tick is pending and the context is cancelled, the
`select` proceeds with the tick case, and `Run` runs one more cycle (a fetch
and an audit write) and is waiting again instead of having returned. -/
theorem both_ready_tick_case_runs_cycle :
    (⟨true, true, Branch.tick⟩ : Ready).tick = true ∧
    (⟨true, true, Branch.tick⟩ : Ready).done = true ∧
    (step (constClient ⟨some sth100, okData, none⟩) (print.Storage showAPICall) "log"
      ⟨Status.waiting, w0⟩ ⟨true, true, Branch.tick⟩).status = Status.waiting ∧
    (step (constClient ⟨some sth100, okData, none⟩) (print.Storage showAPICall) "log"
      ⟨Status.waiting, w0⟩ ⟨true, true, Branch.tick⟩).world.trace.filter isCall =
      [Event.GetSTH ⟨some sth100, okData, none⟩,
       Event.WriteAPICall ⟨"get-sth", okData, none⟩ none] ∧
    (Run (constClient ⟨some sth100, okData, none⟩) (print.Storage showAPICall) "log" 1000 w0
      [⟨true, true, Branch.tick⟩]).status ≠ Status.returned :=
  ⟨rfl, rfl, rfl, rfl, by decide⟩

/-- C7, amended: when the context is cancelled and a tick is pending too,
`Run` proceeds with the case that the `select` picks, either one: with the
cancellation case it logs "stopped", returns, and no later readiness of the
ticker changes anything; with the tick case it runs one more cycle and is
waiting again.  When the context is cancelled and no tick is pending, `Run`
always takes the cancellation case. -/
theorem step_when_cancelled (lc : LogClient κ) (st : APICallWriter σ) (url : String)
    (w : World κ σ) (r : Ready) (hd : r.done = true) :
    (r.tick = true → r.pick = Branch.tick →
      step lc st url ⟨Status.waiting, w⟩ r =
        ⟨Status.waiting, getCheckStoreSTH lc st url w⟩) ∧
    (r.tick = true → r.pick = Branch.done →
      step lc st url ⟨Status.waiting, w⟩ r =
        ⟨Status.returned, w.emit (stoppedMsg url)⟩ ∧
      ∀ post : List Ready, post.foldl (step lc st url) (step lc st url ⟨Status.waiting, w⟩ r) =
        ⟨Status.returned, w.emit (stoppedMsg url)⟩) ∧
    (r.tick = false →
      step lc st url ⟨Status.waiting, w⟩ r =
        ⟨Status.returned, w.emit (stoppedMsg url)⟩ ∧
      ∀ post : List Ready, post.foldl (step lc st url) (step lc st url ⟨Status.waiting, w⟩ r) =
        ⟨Status.returned, w.emit (stoppedMsg url)⟩) := by
  obtain ⟨t, d, p⟩ := r
  simp only at hd
  subst hd
  refine ⟨?_, ?_, ?_⟩
  · intro ht hp
    simp only at ht hp
    subst ht hp
    exact step_tick lc st url w _ rfl
  · intro ht hp
    simp only at ht hp
    subst ht hp
    have h := step_done lc st url w ⟨true, true, Branch.done⟩ rfl
    refine ⟨h, fun post => ?_⟩
    rw [h, foldl_step_halted lc st url _ (by simp)]
  · intro ht
    simp only at ht
    subst ht
    have h := step_done lc st url w ⟨false, true, p⟩ rfl
    refine ⟨h, fun post => ?_⟩
    rw [h, foldl_step_halted lc st url _ (by simp)]

/-- Witness of amended C7: both channels ready, each of the two picks. -/
theorem step_when_cancelled_witness :
    step (constClient ⟨some sth100, okData, none⟩) (print.Storage showAPICall) "log"
        ⟨Status.waiting, w0⟩ ⟨true, true, Branch.tick⟩ =
      ⟨Status.waiting, getCheckStoreSTH (constClient ⟨some sth100, okData, none⟩)
        (print.Storage showAPICall) "log" w0⟩ ∧
    step (constClient ⟨some sth100, okData, none⟩) (print.Storage showAPICall) "log"
        ⟨Status.waiting, w0⟩ ⟨true, true, Branch.done⟩ =
      ⟨Status.returned, w0.emit (stoppedMsg "log")⟩ :=
  ⟨(step_when_cancelled (constClient ⟨some sth100, okData, none⟩) (print.Storage showAPICall)
      "log" w0 ⟨true, true, Branch.tick⟩ rfl).1 rfl rfl,
   ((step_when_cancelled (constClient ⟨some sth100, okData, none⟩) (print.Storage showAPICall)
      "log" w0 ⟨true, true, Branch.done⟩ rfl).2.1 rfl rfl).1⟩

/-- C8: when the first cancellation case is taken with no tick pending, `Run`
returns, the "stopped" line is the last event of its trace whatever becomes
ready afterwards, and before it the trace is the "started" line followed by
the events of cycles only, none of which is a "started" or "stopped" line. -/
theorem Run_cancelled_while_waiting (lc : LogClient κ) (st : APICallWriter σ) (url : String)
    (period : Int) (w : World κ σ) (pre : List Ready) (r : Ready) (post : List Ready)
    (hp : 0 < period) (hpre : ∀ x ∈ pre, selectCase x ≠ some Branch.done)
    (htick : r.tick = false) (hdone : r.done = true) :
    (Run lc st url period w (pre ++ r :: post)).status = Status.returned ∧
    ∃ mid, (Run lc st url period w (pre ++ r :: post)).world.trace =
        w.trace ++ startedMsg url period :: mid ++ [stoppedMsg url] ∧
      (Run lc st url period w pre).world.trace = w.trace ++ startedMsg url period :: mid ∧
      "%s: %s: started with period %v" ∉ formats mid ∧
      "%s: %s: stopped" ∉ formats mid ∧
      (fetches mid).length = ticksBeforeDone pre ∧
      (writes mid).length = ticksBeforeDone pre := by
  obtain ⟨blocks, hlen, hall, -, hwait⟩ :=
    loop_spec lc st url pre (w.emit (startedMsg url period))
  obtain ⟨h1, h2⟩ := hwait hpre
  have hsel : selectCase r = some Branch.done := by
    obtain ⟨t, d, p⟩ := r
    simp only at htick hdone
    subst htick hdone
    rfl
  have hs := eq_of_waiting _ h1
  have hfin : Run lc st url period w (pre ++ r :: post) =
      ⟨Status.returned,
        (pre.foldl (step lc st url) ⟨Status.waiting,
          w.emit (startedMsg url period)⟩).world.emit (stoppedMsg url)⟩ := by
    rw [Run_of_pos lc st url period w _ hp, List.foldl_append, List.foldl_cons, hs,
      step_done lc st url _ r hsel, foldl_step_halted lc st url _ (by simp)]
  have hall2 : ∀ b ∈ blocks, ∃ r werr, b = cycleEvents url r werr := fun b hb => (hall b hb).2
  have hcount := counts_blocks url blocks hall2
  refine ⟨by rw [hfin], blocks.flatten, ?_, ?_, (formats_blocks url blocks hall2).1,
    (formats_blocks url blocks hall2).2, by rw [hcount.1, hlen], by rw [hcount.2, hlen]⟩
  · rw [hfin]
    show _ ++ [stoppedMsg url] = _
    rw [h2]
    simp [World.emit]
  · rw [Run_of_pos lc st url period w _ hp, h2]
    simp [World.emit]

/-- Witness of C8: one cycle, then cancellation with no tick pending, then a
tick that comes too late. -/
theorem Run_cancelled_while_waiting_witness :
    (Run (constClient ⟨some sth100, okData, none⟩) (print.Storage showAPICall) "log" 1000 w0
      ([⟨true, false, Branch.tick⟩] ++ ⟨false, true, Branch.tick⟩ ::
        [⟨true, true, Branch.tick⟩])).status = Status.returned ∧
    ∃ mid, (Run (constClient ⟨some sth100, okData, none⟩) (print.Storage showAPICall) "log"
        1000 w0 ([⟨true, false, Branch.tick⟩] ++ ⟨false, true, Branch.tick⟩ ::
          [⟨true, true, Branch.tick⟩])).world.trace =
        w0.trace ++ startedMsg "log" 1000 :: mid ++ [stoppedMsg "log"] ∧
      (Run (constClient ⟨some sth100, okData, none⟩) (print.Storage showAPICall) "log"
        1000 w0 [⟨true, false, Branch.tick⟩]).world.trace =
        w0.trace ++ startedMsg "log" 1000 :: mid ∧
      "%s: %s: started with period %v" ∉ formats mid ∧
      "%s: %s: stopped" ∉ formats mid ∧
      (fetches mid).length = ticksBeforeDone [⟨true, false, Branch.tick⟩] ∧
      (writes mid).length = ticksBeforeDone [⟨true, false, Branch.tick⟩] :=
  Run_cancelled_while_waiting (constClient ⟨some sth100, okData, none⟩)
    (print.Storage showAPICall) "log" 1000 w0 [⟨true, false, Branch.tick⟩]
    ⟨false, true, Branch.tick⟩ [⟨true, true, Branch.tick⟩] (by decide) (by decide) rfl rfl

/-- C9: the trace of `Run` is the "started" line, then one contiguous block of
events per executed cycle, in the order of the cycles, then the "stopped" line
if `Run` returned.  Each block is what one execution of `getCheckStoreSTH`
appends: its own fetch followed by the write of the audit record made from
that fetch, so no event of another cycle lies between them. -/
theorem Run_trace_is_sequence_of_cycles (lc : LogClient κ) (st : APICallWriter σ)
    (url : String) (period : Int) (w : World κ σ) (script : List Ready) :
    ∃ blocks : List (List Event),
      (Run lc st url period w script).world.trace =
        w.trace ++ startedMsg url period :: blocks.flatten ++
          (if (Run lc st url period w script).status = Status.returned then [stoppedMsg url]
            else []) ∧
      blocks.length = (if period ≤ 0 then 0 else ticksBeforeDone script) ∧
      (∀ b ∈ blocks,
        (∃ wb : World κ σ, (getCheckStoreSTH lc st url wb).trace = wb.trace ++ b) ∧
        ∃ r werr, b.filter isCall =
          [Event.GetSTH r, Event.WriteAPICall (apicall.New ct.GetSTHStr r.httpData r.getErr) werr]) ∧
      writes blocks.flatten =
        (fetches blocks.flatten).map fun r => apicall.New ct.GetSTHStr r.httpData r.getErr := by
  by_cases hp : period ≤ 0
  · refine ⟨[], ?_, by simp [hp], by simp, by simp [writes, fetches]⟩
    rw [Run_of_nonpos lc st url period w script hp]
    simp [World.emit]
  · have hp2 : 0 < period := not_le.mp hp
    obtain ⟨blocks, hlen, hall, hret, hwait⟩ :=
      loop_spec lc st url script (w.emit (startedMsg url period))
    refine ⟨blocks, ?_, by simp [hp, hlen], ?_, ?_⟩
    · rw [Run_of_pos lc st url period w script hp2]
      by_cases hex : ∃ x ∈ script, selectCase x = some Branch.done
      · obtain ⟨h1, h2⟩ := hret hex
        rw [h2, h1]
        simp [World.emit]
      · have hno : ∀ x ∈ script, selectCase x ≠ some Branch.done :=
          fun x hx hxd => hex ⟨x, hx, hxd⟩
        obtain ⟨h1, h2⟩ := hwait hno
        rw [h2, h1]
        simp [World.emit]
    · intro b hb
      obtain ⟨hw, r, werr, rfl⟩ := hall b hb
      exact ⟨hw, r, werr, cycleEvents_calls url r werr⟩
    · have hall2 : ∀ b ∈ blocks, ∃ r werr, b = cycleEvents url r werr :=
        fun b hb => (hall b hb).2
      clear hlen hall hret hwait
      induction blocks with
      | nil => simp [writes, fetches]
      | cons b rest ih =>
        obtain ⟨r0, werr, rfl⟩ := hall2 _ (List.mem_cons_self _ _)
        have ih2 := ih fun b hb => hall2 b (List.mem_cons_of_mem _ hb)
        have hf := fetches_cycleEvents url r0 werr
        have hw := writes_cycleEvents url r0 werr
        simp only [fetches, writes] at hf hw ih2
        simp only [fetches, writes, List.flatten_cons, List.filterMap_append, hf, hw, ih2,
          List.map_append, List.map_cons, List.map_nil]

end sthgetter

end CTMonitor
